import Mathlib

/-!
# Verification of the HiGHS active-set QP solver driver

A shallow embedding of `src/qpsolver/solver.cpp` (the `Solver::solve` loop and
its helper functions `computerowmove`, `computesearchdirection_minor`,
`computesearchdirection_major`, `computemaxsteplength`, `reduce`, `tidyup`) and
of `HighsCliqueTable::haveCommonClique` from `src/mip/HighsCliqueTable.h`.

The collaborator components whose sources are not part of this tree
(`Basis`, `NewCholeskyFactor`, `Vector` internals, `Gradient`,
`ReducedGradient`, `ReducedCosts`, the `Pricing` strategies, the `RatioTest`
strategy and the `Instance` matrices) are modelled from the specification as
abstract operations collected in an environment record `Env`; the control flow
of `solver.cpp` itself is translated statement by statement.

C++ `double` values are modelled by the type `D`: a rational for the finite
case plus distinguished positive infinity, negative infinity and NaN elements,
with IEEE-style comparison behaviour (NaN compares false, an integer converted
to double is always finite).
-/

/-- Model of a C++ `double`: finite rational, `+inf`, `-inf`, or NaN. -/
inductive D where
  | fin : ℚ → D
  | inf : D
  | ninf : D
  | nan : D
deriving DecidableEq, Repr

/-- IEEE-style addition on `D` (`inf + ninf` and any NaN operand give NaN). -/
def D.add : D → D → D
  | D.fin a, D.fin b => D.fin (a + b)
  | D.fin _, D.inf => D.inf
  | D.inf, D.fin _ => D.inf
  | D.inf, D.inf => D.inf
  | D.fin _, D.ninf => D.ninf
  | D.ninf, D.fin _ => D.ninf
  | D.ninf, D.ninf => D.ninf
  | _, _ => D.nan

/-- IEEE-style multiplication on `D` (`0 * inf` and any NaN operand give NaN). -/
def D.mul : D → D → D
  | D.fin a, D.fin b => D.fin (a * b)
  | D.fin a, D.inf => if 0 < a then D.inf else if a < 0 then D.ninf else D.nan
  | D.fin a, D.ninf => if 0 < a then D.ninf else if a < 0 then D.inf else D.nan
  | D.inf, D.fin b => if 0 < b then D.inf else if b < 0 then D.ninf else D.nan
  | D.ninf, D.fin b => if 0 < b then D.ninf else if b < 0 then D.inf else D.nan
  | D.inf, D.inf => D.inf
  | D.inf, D.ninf => D.ninf
  | D.ninf, D.inf => D.ninf
  | D.ninf, D.ninf => D.inf
  | _, _ => D.nan

/-- Negation on `D`. -/
def D.neg : D → D
  | D.fin a => D.fin (-a)
  | D.inf => D.ninf
  | D.ninf => D.inf
  | D.nan => D.nan

/-- `fabs` on `D`. -/
def D.abs : D → D
  | D.fin a => D.fin |a|
  | D.inf => D.inf
  | D.ninf => D.inf
  | D.nan => D.nan

/-- IEEE-style division on `D`; only the finite/finite-nonzero case is ever
exercised by the embedded code (inside the curvature branch of
`computemaxsteplength` the denominator has absolute value above `1e-4`). -/
def D.div : D → D → D
  | D.fin a, D.fin b => if b = 0 then D.nan else D.fin (a / b)
  | D.fin _, D.inf => D.fin 0
  | D.fin _, D.ninf => D.fin 0
  | D.inf, D.fin b => if 0 ≤ b then D.inf else D.ninf
  | D.ninf, D.fin b => if 0 ≤ b then D.ninf else D.inf
  | _, _ => D.nan

/-- IEEE `<` on `D`: false whenever an operand is NaN. -/
def D.blt : D → D → Bool
  | D.fin a, D.fin b => decide (a < b)
  | D.fin _, D.inf => true
  | D.ninf, D.fin _ => true
  | D.ninf, D.inf => true
  | _, _ => false

/-- IEEE `==` on `D`: false whenever an operand is NaN; in particular a
C++ integer converted to double (`D.fin`) never equals `inf`. -/
def D.beq : D → D → Bool
  | D.fin a, D.fin b => decide (a = b)
  | D.inf, D.inf => true
  | D.ninf, D.ninf => true
  | _, _ => false

/-- Dense value array of a `Vector` (`vector.hpp` is not in src/). -/
abbrev Vec := List D

/-- Elementwise negation of a vector. -/
def Vec.neg (x : Vec) : Vec := x.map D.neg

/-- `Vector::saxpy(a, x)`: `this := this + a * x`, elementwise. -/
def Vec.saxpy (x : Vec) (a : D) (p : Vec) : Vec :=
  x.zipWith (fun xi pi => xi.add (a.mul pi)) p

/-- `Vector::saxpy(a, b, x)`: `this := a * this + b * x`, elementwise. -/
def Vec.saxpy3 (x : Vec) (a b : D) (p : Vec) : Vec :=
  x.zipWith (fun xi pi => (a.mul xi).add (b.mul pi)) p

/-- `Vector::scale`: multiply every entry by a scalar. -/
def Vec.scale (a : D) (x : Vec) : Vec := x.map (fun xi => a.mul xi)

/-- `Vector::operator*` (dot product); modelled over the dense values. -/
def Vec.dot (x y : Vec) : D := (x.zipWith D.mul y).foldl D.add (D.fin 0)

/-- Entry read `v.value[i]` with the out-of-range default `0`. -/
def Vec.get (x : Vec) (i : Nat) : D := x.getD i (D.fin 0)

/-- `Vector::unit(dim, u)`: the unit vector of length `n` with a one in
position `i`. -/
def unitVec (n i : Nat) : Vec := (List.replicate n (D.fin 0)).set i (D.fin 1)

/-- Sparse vector as used for the reduction buffer `buffer_d`: the dense value
array together with the nonzero index list (`index[0..num_nz)`); values kept
rational because only finite arithmetic reaches `reduce`. -/
structure SVec where
  value : List ℚ
  nzind : List Nat
deriving DecidableEq, Repr

/-- Entry read `d.value[i]` with the out-of-range default `0`. -/
def SVec.get (d : SVec) (i : Nat) : ℚ := d.value.getD i 0

/-- `Vector::unit(n, idx, buffer_d)`: unit sparse vector. -/
def SVec.unit (n i : Nat) : SVec :=
  ⟨(List.replicate n (0 : ℚ)).set i 1, [i]⟩

/-- The `ProblemStatus` enumeration of the runtime. -/
inductive ProblemStatus where
  | NotSet
  | Optimal
  | Infeasible
  | Unbounded
  | IterationLimit
  | TimeLimit
  | Error
deriving DecidableEq, Repr

/-- The `BasisStatus` enumeration. -/
inductive BStatus where
  | Default
  | ActiveAtLower
  | ActiveAtUpper
deriving DecidableEq, Repr

/-- Modelled from the spec: the observable part of `Basis` (`basis.hpp` is not
in src/): the ordered active index list (`getactive`), the ordered inactive
index list (`getinactive`), the index-to-factorization-slot map
(`getindexinfactor`) and the per-index status (`getstatus`). -/
structure BasisState where
  active : List Nat
  inactive : List Nat
  indexinfactor : Nat → Nat
  status : Nat → BStatus

/-- Abstract internal state of the Cholesky factorization
(`factor.hpp` is not in src/). -/
abbrev FacState := Nat

/-- `RatiotestResult`. -/
structure RTRes where
  alpha : D
  limitingconstraint : Int
  nowactiveatlower : Bool

/-- The mutable state of one `Solver::solve` call: the runtime fields touched
by the loop (`status`, `primal`, `rowactivity`, `dualvar`, `dualcon`, the
iteration counter), the basis, the abstract factorization state, the reduced
gradient (`ReducedGradient` modelled by the vector it returns from `get()`),
the gradient vector, the reduced-costs vector (`getReducedCosts()`), the
loop-control flag `atfsep`, and the two buffers whose contents persist across
iterations (`buffer_Qp`, `buffer_l`). -/
structure LoopState where
  status : ProblemStatus
  numIterations : Nat
  atfsep : Bool
  basis : BasisState
  factor : FacState
  redgrad : Vec
  gradient : Vec
  redcosts : Vec
  primal : Vec
  rowactivity : Vec
  dualvar : Vec
  dualcon : Vec
  bufQp : Vec
  bufL : Vec

/-- Modelled from the spec: the collaborator operations that `solver.cpp`
calls but whose implementations are not in src/ — the `Instance` matrix
products (`Q.mat_vec`, `A.mat_vec`, `A.t().vec_mat`, row extraction dot),
the `Basis` operators (`Zprod`, `Ztprod`, `btran`, `activate`, `deactivate`,
`recomputex`), the factorization operations (`solveL`, `solveLT`, `solve`,
`expand`, `reduce`), the gradient-family updates, the pricing strategy
(`price`), the ratio test, the `Vector` operations `sanitize` and `norm2`
(the latter as the predicate `norm2 < pnorm_zero_threshold`), the wall-clock
check, and the settings. Each field is an arbitrary function so theorems
quantify over every behaviour of the missing components. -/
structure Env where
  num_var : Nat
  num_con : Nat
  iterationlimit : Nat
  d_zero_threshold : ℚ
  timeExceeded : LoopState → Bool
  price : LoopState → Int
  btran : BasisState → Vec → Int → Vec
  Zprod : BasisState → Vec → Vec
  Ztprod : BasisState → Vec → Vec
  ZtprodCol : BasisState → Int → SVec
  solveL : FacState → Vec → Vec
  solveLT : FacState → Vec → Vec
  cfSolve : FacState → Vec → Vec
  factorExpand : FacState → Vec → Vec → Vec → FacState
  factorReduce : FacState → SVec → Nat → Bool → FacState
  rgExpand : Vec → Vec → Vec
  rgReduce : Vec → SVec → Nat → Vec
  rgUpdate : Vec → D → Bool → Vec
  rcUpdate : LoopState → Vec
  gradInit : Vec → Vec
  rgInit : Vec
  rcInit : Vec
  factorInit : FacState
  activateB : BasisState → Int → BStatus → Int → BasisState
  deactivateB : BasisState → Int → BasisState
  sanitizeV : Vec → Vec
  pnormSmall : Vec → Bool
  ratiotest : LoopState → Vec → Vec → D → RTRes
  Qmatvec : Vec → Vec
  Amatvec : Vec → Vec
  AtranVecmat : Vec → Vec
  AtranColDot : Nat → Vec → D
  resparsifyV : Vec → Vec
  recomputex : BasisState → Vec

/-- `indexof` from `snippets.hpp` (not in src/): position of `x` in the list
or `-1`; modelled by explicit recursion with a running counter. -/
def indexofAux (x : Int) : List Nat → Nat → Int
  | [], _ => -1
  | a :: rest, k => if (a : Int) = x then (k : Int) else indexofAux x rest (k + 1)

/-- `indexof(vector, x)`. -/
def indexof (l : List Nat) (x : Int) : Int := indexofAux x l 0

/-- The pivot-search loop of `reduce` (solver.cpp:159-165): starting from
`maxabsd = 0`, scan the nonzero index list and keep the position with the
strictly larger absolute value. -/
def redMaxabsd (d : SVec) : Nat :=
  d.nzind.foldl (fun m i => if |d.get i| > |d.get m| then i else m) 0

/-- `reduce` (solver.cpp:144-176). Returns the triple
`(buffer_d, maxabsd, constrainttodrop)`; `none` models the `exit(1)` abort in
the degenerate dead-end (the function has no way to return an `Error`
status). If the entering constraint is found among the inactive indices the
buffer is the unit vector at its position and the constraint to drop is the
entering constraint itself; otherwise the buffer is `Ztprod` of the
constraint column, the pivot is the position of maximal absolute value, the
constraint to drop is the inactive index at that position, and the process
aborts when the pivot magnitude is below `d_zero_threshold`. -/
def reduceFn (env : Env) (basis : BasisState) (newactivecon : Int) : Option (SVec × Nat × Int) :=
  let idx := indexof basis.inactive newactivecon
  if idx ≠ -1 then
    some (SVec.unit basis.inactive.length idx.toNat, idx.toNat, newactivecon)
  else
    let buffer_d := env.ZtprodCol basis newactivecon
    let maxabsd := redMaxabsd buffer_d
    let constrainttodrop : Int := (basis.inactive.getD maxabsd 0 : Nat)
    if |buffer_d.get maxabsd| < env.d_zero_threshold then none
    else some (buffer_d, maxabsd, constrainttodrop)

/-- The statements of the body of `computerowmove` (solver.cpp:61-85), kept as
an explicit statement list so that the early `return` and the dead code after
it are part of the embedding. -/
inductive RMStmt where
  | assignMatVec
  | ret
  | assignTranVecMat
  | statusLoop
  | resparsify

/-- The dead per-row recomputation loop of `computerowmove`
(solver.cpp:69-83): rows with `Default` basis status get the dot product with
the corresponding column of `A` transposed, other rows are zeroed. -/
def statusLoopFn (env : Env) (basis : BasisState) (p : Vec) (rm : Vec) : Vec :=
  (List.range env.num_con).foldl
    (fun r i =>
      if basis.status i = BStatus.Default then r.set i (env.AtranColDot i p)
      else r.set i (D.fin 0))
    rm

/-- Executes a statement list of `computerowmove` over the `rowmove` buffer,
stopping at the first `return`. -/
def execRM (env : Env) (basis : BasisState) (p : Vec) : List RMStmt → Vec → Vec
  | [], rm => rm
  | RMStmt.ret :: _, rm => rm
  | RMStmt.assignMatVec :: rest, _ => execRM env basis p rest (env.Amatvec p)
  | RMStmt.assignTranVecMat :: rest, _ => execRM env basis p rest (env.AtranVecmat p)
  | RMStmt.statusLoop :: rest, rm => execRM env basis p rest (statusLoopFn env basis p rm)
  | RMStmt.resparsify :: rest, rm => execRM env basis p rest (env.resparsifyV rm)

/-- The statement sequence of the body of `computerowmove` in source order:
`A.mat_vec(p, rowmove); return;` then the dead transpose-based recomputation
`Atran.vec_mat(p, rowmove); return;` then the dead status-dependent loop and
`rowmove.resparsify()`. -/
def computerowmoveBody : List RMStmt :=
  [RMStmt.assignMatVec, RMStmt.ret, RMStmt.assignTranVecMat, RMStmt.ret,
   RMStmt.statusLoop, RMStmt.resparsify]

/-- `computerowmove` (solver.cpp:61-85): execute the statement list over the
incoming `rowmove` buffer. -/
def computerowmove (env : Env) (basis : BasisState) (p : Vec) (rm : Vec) : Vec :=
  execRM env basis p computerowmoveBody rm

/-- The specification-side definition for the refinement comparison:
`rowmove := A · p`, with no dependence on basis statuses. -/
def computerowmoveSpec (env : Env) (p : Vec) : Vec := env.Amatvec p

/-- `computesearchdirection_minor` (solver.cpp:88-98):
`g2 := -redgrad.get(); g2.sanitize(); cf.solve(g2); g2.sanitize();
return bas.Zprod(g2, p)`. -/
def computesearchdirection_minor (env : Env) (s : LoopState) : Vec :=
  env.Zprod s.basis (env.sanitizeV (env.cfSolve s.factor (env.sanitizeV (Vec.neg s.redgrad))))

/-- `computesearchdirection_major` (solver.cpp:101-126). Returns
`(p, buffer_gyp, buffer_l)`; in the full-active-set branch `buffer_l` is left
with its previous contents (`s.bufL`), exactly as the C++ buffer is not
written there. -/
def computesearchdirection_major (env : Env) (s : LoopState) (yp : Vec) : Vec × Vec × Vec :=
  let gyp := env.Qmatvec yp
  if s.basis.active.length < env.num_var then
    let l := env.solveL s.factor (env.Ztprod s.basis gyp)
    let v := env.solveLT s.factor l
    let p0 := env.Zprod s.basis v
    if D.blt (Vec.dot s.gradient yp) (D.fin 0) then
      (p0.saxpy3 (D.fin (-1)) (D.fin 1) yp, gyp, l)
    else
      (p0.saxpy3 (D.fin (-1)) (D.fin (-1)) yp, gyp, l)
  else
    (Vec.scale (Vec.dot s.gradient yp).neg yp, gyp, s.bufL)

/-- `computemaxsteplength` (solver.cpp:128-142), with
`buffer_Qp = Q.mat_vec(p)` supplied by the caller: if
`fabs(p * Qp) > 10E-5` the step is `-(p*g)/(p*Qp)` clamped below by `0`;
otherwise the zero-curvature flag is set and the step is `+inf`. The incoming
flag value `zcd` is passed through unchanged in the curvature branch, as the
C++ reference parameter is; the locals `denominator` and `numerator` are
inlined. -/
def computemaxsteplength (p grad buffer_Qp : Vec) (zcd : Bool) : D × Bool :=
  if D.blt (D.fin (1 / 10000)) (Vec.dot p buffer_Qp).abs then
    if D.blt (Vec.dot p grad).neg (D.fin 0) then (D.fin 0, zcd)
    else ((Vec.dot p grad).neg.div (Vec.dot p buffer_Qp), zcd)
  else (D.inf, true)

/-- `tidyup` (solver.cpp:49-57): zero the entries of `p` at active variable
bounds and the entries of `rowmove` at active constraint rows. -/
def tidyup (num_con : Nat) (active : List Nat) (p rowmove : Vec) : Vec × Vec :=
  active.foldl
    (fun pr acon =>
      if acon ≥ num_con then (pr.1.set (acon - num_con) (D.fin 0), pr.2)
      else (pr.1, pr.2.set acon (D.fin 0)))
    (p, rowmove)

/-- Modelled from the spec: `Gradient.update(Qp, alpha)` advances the gradient
after a step of length `alpha` using the precomputed `Q·p`
(`gradient.hpp` is not in src/): `g := g + alpha * Qp`. -/
def gradientUpdate (g Qp : Vec) (alpha : D) : Vec := g.saxpy alpha Qp

/-- The dual-recovery pass after the loop (solver.cpp:313-323): for each
active index `e` in order, write `lambda[indexinfactor[e]]` into
`dualvar[e - num_con]` when `e ≥ num_con` and into `dualcon[e]` otherwise. -/
def writeDuals (num_con : Nat) (iif : Nat → Nat) (lam : Vec) :
    List Nat → Vec → Vec → Vec × Vec
  | [], dcon, dvar => (dcon, dvar)
  | e :: rest, dcon, dvar =>
    if e ≥ num_con then
      writeDuals num_con iif lam rest dcon (dvar.set (e - num_con) (lam.get (iif e)))
    else
      writeDuals num_con iif lam rest (dcon.set e (lam.get (iif e))) dvar

/-- One outcome of a loop iteration: `brk` models `break` (the loop body is
left with the given state), `abort` models the `exit(1)` inside `reduce`,
`cont` models falling through to the next iteration. -/
inductive StepOut where
  | brk : LoopState → StepOut
  | abort : StepOut
  | cont : LoopState → StepOut

/-- The buffer `buffer_yp` of an AtVertex iteration (solver.cpp:239-241):
`unit := getindexinfactor()[minidx]; Vector::unit(num_var, unit, buffer_yp);
basis.btran(buffer_yp, buffer_yp, true, minidx)`. -/
def majorYp (env : Env) (s : LoopState) (minidx : Int) : Vec :=
  env.btran s.basis (unitVec env.num_var (s.basis.indexinfactor minidx.toNat)) minidx

/-- The `(p, buffer_gyp, buffer_l)` triple of an AtVertex iteration
(solver.cpp:244-245), computed on the basis before `deactivate`. -/
def majorDir (env : Env) (s : LoopState) (minidx : Int) : Vec × Vec × Vec :=
  computesearchdirection_major env s (majorYp env s minidx)

/-- The basis after `basis.deactivate(minidx)` (solver.cpp:246). -/
def majorBasis (env : Env) (s : LoopState) (minidx : Int) : BasisState :=
  env.deactivateB s.basis minidx

/-- `(p, rowmove)` after `computerowmove` and `tidyup` of an AtVertex
iteration (solver.cpp:247-248), both called with the deactivated basis. -/
def majorPRM (env : Env) (s : LoopState) (minidx : Int) : Vec × Vec :=
  tidyup env.num_con (majorBasis env s minidx).active (majorDir env s minidx).1
    (computerowmove env (majorBasis env s minidx) (majorDir env s minidx).1
      (List.replicate env.num_con (D.fin 0)))

/-- The tidied search direction `p` of an AtVertex iteration. -/
def majorP (env : Env) (s : LoopState) (minidx : Int) : Vec :=
  (majorPRM env s minidx).1

/-- `buffer_Qp := Q.mat_vec(p)` of an AtVertex iteration (solver.cpp:251). -/
def majorQp (env : Env) (s : LoopState) (minidx : Int) : Vec :=
  env.Qmatvec (majorP env s minidx)

/-- `(maxsteplength, zero_curvature_direction)` of an AtVertex iteration
(solver.cpp:252-253); the flag enters as `false` from line 229. -/
def majorMS (env : Env) (s : LoopState) (minidx : Int) : D × Bool :=
  computemaxsteplength (majorP env s minidx) s.gradient (majorQp env s minidx) false

/-- The whole AtVertex branch after pricing (solver.cpp:239-257): compute
`buffer_yp` and the major direction, deactivate the entering index, tidy the
direction, compute the step length and zero-curvature flag, update the
factorization by `expand` unless the direction has zero curvature, and expand
the reduced gradient unconditionally. Returns the updated state together with
`p`, `rowmove`, `maxsteplength` and the flag. -/
def majorStep (env : Env) (s : LoopState) (minidx : Int) : LoopState × Vec × Vec × D × Bool :=
  let yp := majorYp env s minidx
  let gl := majorDir env s minidx
  let prm := majorPRM env s minidx
  let qp := majorQp env s minidx
  let ms := majorMS env s minidx
  ({ s with
      basis := majorBasis env s minidx
      factor := if !ms.2 then env.factorExpand s.factor yp gl.2.1 gl.2.2 else s.factor
      redgrad := env.rgExpand s.redgrad yp
      bufQp := qp
      bufL := gl.2.2 },
   prm.1, prm.2, ms.1, ms.2)

/-- The final statements of a moving iteration (solver.cpp:302-306):
`gradient.update(buffer_Qp, alpha); redcosts.update();
primal.saxpy(alpha, p); rowactivity.saxpy(alpha, rowmove)`. -/
def finishStep (env : Env) (s : LoopState) (p rowmove : Vec) (alpha : D) : StepOut :=
  let s1 := { s with gradient := gradientUpdate s.gradient s.bufQp alpha }
  StepOut.cont { s1 with
    redcosts := env.rcUpdate s1
    primal := s1.primal.saxpy alpha p
    rowactivity := s1.rowactivity.saxpy alpha rowmove }

/-- The tail common to both branches after the step/direction computation
(solver.cpp:264-307): flip to AtVertex without moving when the direction norm
is below threshold or the step length is zero; otherwise run the ratio test,
then either activate the blocking constraint (with `reduce`, the guarded
factorization downdate, the reduced-gradient updates, and the AtVertex flag
update), or take the non-blocking branch (with the dead `Unbounded`
assignment guarded by the int-against-infinity comparison), and finally
advance gradient, reduced costs, primal and row activity. -/
def stepTail (env : Env) (s : LoopState) (p rowmove : Vec) (maxsteplength : D)
    (zcd : Bool) : StepOut :=
  if env.pnormSmall p || D.beq maxsteplength (D.fin 0) then
    StepOut.cont { s with atfsep := true }
  else
    let stepres := env.ratiotest s p rowmove maxsteplength
    if stepres.limitingconstraint ≠ -1 then
      match reduceFn env s.basis stepres.limitingconstraint with
      | none => StepOut.abort
      | some dmc =>
        let s1 := { s with
          factor :=
            if !zcd then
              env.factorReduce s.factor dmc.1 dmc.2.1
                (indexof s.basis.inactive stepres.limitingconstraint ≠ -1)
            else s.factor
          redgrad := env.rgUpdate (env.rgReduce s.redgrad dmc.1 dmc.2.1) stepres.alpha false
          basis := env.activateB s.basis stepres.limitingconstraint
            (if stepres.nowactiveatlower then BStatus.ActiveAtLower else BStatus.ActiveAtUpper)
            dmc.2.2 }
        let s2 :=
          if s1.basis.active.length ≠ env.num_var then { s1 with atfsep := false } else s1
        finishStep env s2 p rowmove stepres.alpha
    else
      let s1 :=
        if D.beq (D.fin (stepres.limitingconstraint : ℚ)) D.inf then
          { s with status := ProblemStatus.Unbounded }
        else s
      let s2 := { s1 with atfsep := true,
                          redgrad := env.rgUpdate s1.redgrad stepres.alpha false }
      finishStep env s2 p rowmove stepres.alpha

/-- One iteration of the `while (true)` loop of `Solver::solve`
(solver.cpp:207-308). The statistics-only logging block (lines 220-226) is
omitted; the iteration counter increment (line 227) happens before pricing,
so the pricing oracle sees the incremented state, as the C++ pricing object
reads the mutated runtime. -/
def step (env : Env) (s : LoopState) : StepOut :=
  if s.numIterations ≥ env.iterationlimit then
    StepOut.brk { s with status := ProblemStatus.IterationLimit }
  else if env.timeExceeded s then
    StepOut.brk { s with status := ProblemStatus.TimeLimit }
  else
    let s := { s with numIterations := s.numIterations + 1 }
    if s.atfsep then
      let minidx := env.price s
      if minidx = -1 then StepOut.brk { s with status := ProblemStatus.Optimal }
      else
        let r := majorStep env s minidx
        stepTail env r.1 r.2.1 r.2.2.1 r.2.2.2.1 r.2.2.2.2
    else
      let p := computesearchdirection_minor env s
      let prm := tidyup env.num_con s.basis.active p
        (computerowmove env s.basis p (List.replicate env.num_con (D.fin 0)))
      stepTail env s prm.1 prm.2 (D.fin 1) false

/-- Outcome of running the loop: normal `break` with the exit state, process
abort from `reduce`, or fuel exhaustion (the loop itself has no termination
guarantee). -/
inductive RunOut where
  | term : LoopState → RunOut
  | aborted : RunOut
  | fuelout : LoopState → RunOut
deriving Inhabited

/-- Run the solve loop for at most `fuel` iterations. -/
def runLoop (env : Env) : Nat → LoopState → RunOut
  | 0, s => RunOut.fuelout s
  | n + 1, s =>
    match step env s with
    | StepOut.brk t => RunOut.term t
    | StepOut.abort => RunOut.aborted
    | StepOut.cont t => runLoop env n t

/-- The state at entry of the loop (solver.cpp:178-206): primal set to the
crash point `x0`, row activity recomputed as `A·x0` (the crash row activity
argument is not used by the body), the gradient family and factorization
freshly constructed, duals taken from the runtime, and
`atfsep := (getnumactive() == num_var)`. -/
def solveInit (env : Env) (x0 : Vec) (b0 : BasisState) (dv0 dc0 : Vec) : LoopState :=
  { status := ProblemStatus.NotSet
    numIterations := 0
    atfsep := b0.active.length = env.num_var
    basis := b0
    factor := env.factorInit
    redgrad := env.rgInit
    gradient := env.gradInit x0
    redcosts := env.rcInit
    primal := x0
    rowactivity := env.Amatvec x0
    dualvar := dv0
    dualcon := dc0
    bufQp := List.replicate env.num_var (D.fin 0)
    bufL := List.replicate env.num_var (D.fin 0) }

/-- The code after the loop (solver.cpp:313-327): recover the dual values for
every active index from the final reduced-cost vector through the
basis-to-factorization map, then replace the primal point by
`basis.recomputex(instance)` exactly when the active set is full. The
statistics logging and the end-of-iteration event between loop exit and this
code mutate no primal/dual state and are omitted. -/
def solveEnd (env : Env) (s : LoopState) : LoopState :=
  let dd := writeDuals env.num_con s.basis.indexinfactor s.redcosts s.basis.active
    s.dualcon s.dualvar
  let s1 := { s with dualcon := dd.1, dualvar := dd.2 }
  if s1.basis.active.length = env.num_var then
    { s1 with primal := env.recomputex s1.basis }
  else s1

/-- `Solver::solve(x0, ra, b0)` end to end, with bounded fuel for the loop:
run the loop from the initial state and, on a normal exit, apply the
post-loop recovery. -/
def solve (env : Env) (fuel : Nat) (x0 : Vec) (b0 : BasisState) (dv0 dc0 : Vec) : RunOut :=
  match runLoop env fuel (solveInit env x0 b0 dv0 dc0) with
  | RunOut.term s => RunOut.term (solveEnd env s)
  | r => r

/-- `HighsCliqueTable::CliqueVar` (HighsCliqueTable.h): a column index and a
one-bit value. -/
structure CliqueVar where
  col : Nat
  val : Nat
deriving DecidableEq, Repr

/-- `CliqueVar::complement()`: same column, flipped value. -/
def CliqueVar.complement (v : CliqueVar) : CliqueVar := ⟨v.col, 1 - v.val⟩

/-- `HighsCliqueTable::haveCommonClique(v1, v2)` (HighsCliqueTable.h:247-250):
`if (v1.col == v2.col) return false; return findCommonCliqueId(v1, v2) != -1`.
The clique-set query `findCommonCliqueId` is implemented outside this tree, so
it is a parameter; the result's independence from it expresses that the early
return never consults the stored clique sets. -/
def haveCommonClique (findCommonCliqueId : CliqueVar → CliqueVar → Int)
    (v1 v2 : CliqueVar) : Bool :=
  if v1.col = v2.col then false else findCommonCliqueId v1 v2 ≠ -1

/-! ## Concrete instantiations used by witnesses and counterexamples -/

/-- A concrete basis with one active variable bound. -/
def baseBasis : BasisState :=
  { active := [1], inactive := [0], indexinfactor := fun _ => 0,
    status := fun _ => BStatus.Default }

/-- A concrete environment with identity-like collaborator behaviour; claim
witnesses override individual fields. -/
def baseEnv : Env :=
  { num_var := 1
    num_con := 1
    iterationlimit := 10
    d_zero_threshold := 1 / 1000000
    timeExceeded := fun _ => false
    price := fun _ => -1
    btran := fun _ v _ => v
    Zprod := fun _ v => v
    Ztprod := fun _ v => v
    ZtprodCol := fun _ _ => ⟨[], []⟩
    solveL := fun _ v => v
    solveLT := fun _ v => v
    cfSolve := fun _ v => v
    factorExpand := fun f _ _ _ => f
    factorReduce := fun f _ _ _ => f
    rgExpand := fun r _ => r
    rgReduce := fun r _ _ => r
    rgUpdate := fun r _ _ => r
    rcUpdate := fun s => s.redcosts
    gradInit := fun x => x
    rgInit := [D.fin 0]
    rcInit := [D.fin 0]
    factorInit := 0
    activateB := fun b _ _ _ => b
    deactivateB := fun b _ => b
    sanitizeV := fun v => v
    pnormSmall := fun _ => false
    ratiotest := fun _ _ _ ms => ⟨ms, -1, false⟩
    Qmatvec := fun v => v
    Amatvec := fun v => v
    AtranVecmat := fun v => v
    AtranColDot := fun _ _ => D.fin 0
    resparsifyV := fun v => v
    recomputex := fun _ => [D.fin 0] }

/-- A concrete loop state matching `baseEnv`. -/
def baseState : LoopState :=
  { status := ProblemStatus.NotSet
    numIterations := 0
    atfsep := true
    basis := baseBasis
    factor := 0
    redgrad := [D.fin 0]
    gradient := [D.fin 0]
    redcosts := [D.fin 0]
    primal := [D.fin 0]
    rowactivity := [D.fin 0]
    dualvar := [D.fin 0]
    dualcon := [D.fin 0]
    bufQp := [D.fin 0]
    bufL := [D.fin 0] }

/-! ## Helper lemmas -/

/-- Reading back the just-written entry of a vector. -/
theorem vecGet_set_self : ∀ (l : Vec) (i : Nat) (x : D), i < l.length →
    Vec.get (l.set i x) i = x
  | [], i, x, h => absurd h (by simp)
  | _ :: _, 0, _, _ => rfl
  | _ :: t, i + 1, x, h => vecGet_set_self t i x (by simpa using h)

/-- Writing one entry of a vector leaves every other entry unchanged. -/
theorem vecGet_set_ne : ∀ (l : Vec) (i j : Nat) (x : D), i ≠ j →
    Vec.get (l.set i x) j = Vec.get l j
  | [], _, _, _, _ => rfl
  | _ :: _, 0, 0, _, h => absurd rfl h
  | _ :: _, 0, _ + 1, _, _ => rfl
  | _ :: _, _ + 1, 0, _, _ => rfl
  | _ :: t, i + 1, j + 1, x, h => vecGet_set_ne t i j x (by omega)

/-- getD after set at the written position. -/
theorem listGetD_set_self {α : Type} : ∀ (l : List α) (i : Nat) (x d : α), i < l.length →
    (l.set i x).getD i d = x
  | [], i, x, d, h => absurd h (by simp)
  | _ :: _, 0, _, _, _ => rfl
  | _ :: t, i + 1, x, d, h => listGetD_set_self t i x d (by simpa using h)

/-- getD after set at another position. -/
theorem listGetD_set_ne {α : Type} : ∀ (l : List α) (i j : Nat) (x d : α), i ≠ j →
    (l.set i x).getD j d = l.getD j d
  | [], _, _, _, _, _ => rfl
  | _ :: _, 0, 0, _, _, h => absurd rfl h
  | _ :: _, 0, _ + 1, _, _, _ => rfl
  | _ :: _, _ + 1, 0, _, _, _ => rfl
  | _ :: t, i + 1, j + 1, x, d, h => listGetD_set_ne t i j x d (by omega)

/-- Setting an out-of-range position leaves a list unchanged. -/
theorem listSet_oob {α : Type} : ∀ (l : List α) (i : Nat) (x : α), l.length ≤ i → l.set i x = l
  | [], _, _, _ => rfl
  | _ :: _, 0, _, h => absurd h (by simp)
  | a :: t, i + 1, x, h => by
      show a :: t.set i x = a :: t
      rw [listSet_oob t i x (by simpa using h)]

/-- Every entry of a zero replicate reads zero. -/
theorem listGetD_replicate_zero : ∀ (n i : Nat), (List.replicate n (0 : ℚ)).getD i 0 = 0
  | 0, 0 => rfl
  | 0, _ + 1 => rfl
  | _ + 1, 0 => rfl
  | n + 1, i + 1 => listGetD_replicate_zero n i

/-- The distinguished entry of a unit sparse vector reads one. -/
theorem svecUnit_get_self (n j : Nat) (h : j < n) : (SVec.unit n j).get j = 1 := by
  unfold SVec.unit SVec.get
  exact listGetD_set_self _ _ _ _ (by simpa using h)

/-- Every entry of a unit sparse vector has absolute value at most one. -/
theorem svecUnit_get_le (n j i : Nat) : |(SVec.unit n j).get i| ≤ 1 := by
  unfold SVec.unit SVec.get
  by_cases hij : i = j
  · subst hij
    by_cases hn : i < n
    · rw [listGetD_set_self _ _ _ _ (by simpa using hn)]
      norm_num
    · rw [listSet_oob _ _ _ (by simp; omega), listGetD_replicate_zero]
      norm_num
  · rw [listGetD_set_ne _ _ _ _ _ (fun h => hij h.symm), listGetD_replicate_zero]
    norm_num

/-- Entries of `dualcon` whose index is hit by no active constraint index are
unchanged by the dual-recovery pass. -/
theorem writeDuals_con_untouched (num_con : Nat) (iif : Nat → Nat) (lam : Vec) :
    ∀ (act : List Nat) (dcon dvar : Vec) (j : Nat),
      (∀ e ∈ act, e < num_con → e ≠ j) →
      Vec.get (writeDuals num_con iif lam act dcon dvar).1 j = Vec.get dcon j
  | [], _, _, _, _ => rfl
  | e :: rest, dcon, dvar, j, h => by
      unfold writeDuals
      by_cases hc : e ≥ num_con
      · rw [if_pos hc]
        exact writeDuals_con_untouched num_con iif lam rest dcon _ j
          (fun x hx => h x (List.mem_cons_of_mem _ hx))
      · rw [if_neg hc]
        rw [writeDuals_con_untouched num_con iif lam rest _ dvar j
          (fun x hx => h x (List.mem_cons_of_mem _ hx))]
        exact listGetD_set_ne _ _ _ _ _ (h e (List.mem_cons_self _ _) (by omega))

/-- Entries of `dualvar` whose index is hit by no active bound index are
unchanged by the dual-recovery pass. -/
theorem writeDuals_var_untouched (num_con : Nat) (iif : Nat → Nat) (lam : Vec) :
    ∀ (act : List Nat) (dcon dvar : Vec) (j : Nat),
      (∀ e ∈ act, e ≥ num_con → e - num_con ≠ j) →
      Vec.get (writeDuals num_con iif lam act dcon dvar).2 j = Vec.get dvar j
  | [], _, _, _, _ => rfl
  | e :: rest, dcon, dvar, j, h => by
      unfold writeDuals
      by_cases hc : e ≥ num_con
      · rw [if_pos hc]
        rw [writeDuals_var_untouched num_con iif lam rest dcon _ j
          (fun x hx => h x (List.mem_cons_of_mem _ hx))]
        exact listGetD_set_ne _ _ _ _ _ (h e (List.mem_cons_self _ _) hc)
      · rw [if_neg hc]
        exact writeDuals_var_untouched num_con iif lam rest _ dvar j
          (fun x hx => h x (List.mem_cons_of_mem _ hx))

/-- The dual-recovery pass writes `lambda[indexinfactor[e]]` into
`dualvar[e - num_con]` for an active bound index `e ≥ num_con`. -/
theorem writeDuals_var_written (num_con : Nat) (iif : Nat → Nat) (lam : Vec) :
    ∀ (act : List Nat) (dcon dvar : Vec) (e : Nat), act.Nodup → e ∈ act → e ≥ num_con →
      e - num_con < dvar.length →
      Vec.get (writeDuals num_con iif lam act dcon dvar).2 (e - num_con) = Vec.get lam (iif e)
  | [], _, _, e, _, he, _, _ => absurd he (by simp)
  | a :: rest, dcon, dvar, e, hnd, he, hge, hlen => by
      unfold writeDuals
      rcases List.mem_cons.mp he with rfl | he'
      · rw [if_pos hge]
        rw [writeDuals_var_untouched num_con iif lam rest dcon _ (e - num_con)
          (fun x hx hxc => by
            have hne : x ≠ e := fun hxe => (List.nodup_cons.mp hnd).1 (hxe ▸ hx)
            omega)]
        exact listGetD_set_self _ _ _ _ hlen
      · by_cases hc : a ≥ num_con
        · rw [if_pos hc]
          exact writeDuals_var_written num_con iif lam rest dcon _ e
            (List.nodup_cons.mp hnd).2 he' hge (by simpa using hlen)
        · rw [if_neg hc]
          exact writeDuals_var_written num_con iif lam rest _ dvar e
            (List.nodup_cons.mp hnd).2 he' hge hlen

/-- The dual-recovery pass writes `lambda[indexinfactor[e]]` into
`dualcon[e]` for an active constraint index `e < num_con`. -/
theorem writeDuals_con_written (num_con : Nat) (iif : Nat → Nat) (lam : Vec) :
    ∀ (act : List Nat) (dcon dvar : Vec) (e : Nat), act.Nodup → e ∈ act → e < num_con →
      e < dcon.length →
      Vec.get (writeDuals num_con iif lam act dcon dvar).1 e = Vec.get lam (iif e)
  | [], _, _, e, _, he, _, _ => absurd he (by simp)
  | a :: rest, dcon, dvar, e, hnd, he, hlt, hlen => by
      unfold writeDuals
      rcases List.mem_cons.mp he with rfl | he'
      · rw [if_neg (by omega)]
        rw [writeDuals_con_untouched num_con iif lam rest _ dvar e
          (fun x hx hxc => fun hxe => (List.nodup_cons.mp hnd).1 (hxe ▸ hx))]
        exact listGetD_set_self _ _ _ _ hlen
      · by_cases hc : a ≥ num_con
        · rw [if_pos hc]
          exact writeDuals_con_written num_con iif lam rest dcon _ e
            (List.nodup_cons.mp hnd).2 he' hlt hlen
        · rw [if_neg hc]
          exact writeDuals_con_written num_con iif lam rest _ dvar e
            (List.nodup_cons.mp hnd).2 he' hlt (by simpa using hlen)

/-- `solveEnd` never changes the status. -/
theorem solveEnd_status (env : Env) (s : LoopState) : (solveEnd env s).status = s.status := by
  dsimp only [solveEnd]
  split <;> rfl

/-- `solveEnd` never changes the basis. -/
theorem solveEnd_basis (env : Env) (s : LoopState) : (solveEnd env s).basis = s.basis := by
  dsimp only [solveEnd]
  split <;> rfl

/-- `solveEnd` replaces the primal point by `recomputex` exactly when the
active set is full, and otherwise leaves it unchanged. -/
theorem solveEnd_primal (env : Env) (s : LoopState) :
    (solveEnd env s).primal =
      (if s.basis.active.length = env.num_var then env.recomputex s.basis else s.primal) := by
  dsimp only [solveEnd]
  split <;> rfl

/-- The `dualcon` component of `solveEnd` is the first component of the
dual-recovery pass. -/
theorem solveEnd_dualcon (env : Env) (s : LoopState) :
    (solveEnd env s).dualcon =
      (writeDuals env.num_con s.basis.indexinfactor s.redcosts s.basis.active
        s.dualcon s.dualvar).1 := by
  dsimp only [solveEnd]
  split <;> rfl

/-- The `dualvar` component of `solveEnd` is the second component of the
dual-recovery pass. -/
theorem solveEnd_dualvar (env : Env) (s : LoopState) :
    (solveEnd env s).dualvar =
      (writeDuals env.num_con s.basis.indexinfactor s.redcosts s.basis.active
        s.dualcon s.dualvar).2 := by
  dsimp only [solveEnd]
  split <;> rfl

/-- `indexofAux` either reports `-1` or the offset position of a matching
element. -/
theorem indexofAux_spec (x : Int) :
    ∀ (l : List Nat) (k : Nat),
      indexofAux x l k = -1 ∨
      ∃ j : Nat, indexofAux x l k = ((k + j : Nat) : Int) ∧ j < l.length ∧
        (l.getD j 0 : Int) = x
  | [], _ => Or.inl rfl
  | a :: rest, k => by
      unfold indexofAux
      by_cases ha : (a : Int) = x
      · exact Or.inr ⟨0, by simp [ha], by simp, by simpa using ha⟩
      · rw [if_neg ha]
        rcases indexofAux_spec x rest (k + 1) with h | ⟨j, hj, hjl, hjx⟩
        · exact Or.inl h
        · refine Or.inr ⟨j + 1, ?_, by simp; omega, by simpa using hjx⟩
          rw [hj]
          congr 1
          omega

/-- If `indexof` does not report `-1`, it reports a position below the length
holding the sought value. -/
theorem indexof_spec (l : List Nat) (x : Int) (h : indexof l x ≠ -1) :
    (indexof l x).toNat < l.length ∧ ((l.getD (indexof l x).toNat 0 : Nat) : Int) = x := by
  rcases indexofAux_spec x l 0 with h0 | ⟨j, hj, hjl, hjx⟩
  · exact absurd h0 h
  · have hj' : indexof l x = (j : Int) := by
      unfold indexof
      rw [hj]
      norm_num
    have ht : ((j : Int)).toNat = j := by omega
    rw [hj', ht]
    exact ⟨hjl, hjx⟩

/-- The pivot-search fold dominates its seed and every scanned position. -/
theorem redMaxabsd_fold_ge (d : SVec) :
    ∀ (l : List Nat) (a : Nat),
      |d.get a| ≤ |d.get (l.foldl (fun m i => if |d.get i| > |d.get m| then i else m) a)| ∧
      ∀ i ∈ l, |d.get i| ≤ |d.get (l.foldl (fun m i => if |d.get i| > |d.get m| then i else m) a)|
  | [], a => ⟨le_refl _, by simp⟩
  | b :: rest, a => by
      simp only [List.foldl_cons]
      obtain ⟨h1, h2⟩ := redMaxabsd_fold_ge d rest (if |d.get b| > |d.get a| then b else a)
      refine ⟨le_trans ?_ h1, ?_⟩
      · by_cases hb : |d.get b| > |d.get a|
        · rw [if_pos hb]
          exact le_of_lt hb
        · rw [if_neg hb]
      · intro i hi
        rcases List.mem_cons.mp hi with rfl | hi'
        · refine le_trans ?_ h1
          by_cases hb : |d.get i| > |d.get a|
          · rw [if_pos hb]
          · rw [if_neg hb]
            exact le_of_not_lt hb
        · exact h2 i hi'

/-- The pivot-search fold lands on the seed or on a scanned position. -/
theorem redMaxabsd_fold_mem (d : SVec) :
    ∀ (l : List Nat) (a : Nat),
      l.foldl (fun m i => if |d.get i| > |d.get m| then i else m) a ∈ a :: l
  | [], a => by simp
  | b :: rest, a => by
      simp only [List.foldl_cons]
      have hrec := redMaxabsd_fold_mem d rest (if |d.get b| > |d.get a| then b else a)
      by_cases hb : |d.get b| > |d.get a|
      · rw [if_pos hb] at hrec ⊢
        exact List.mem_cons_of_mem _ hrec
      · rw [if_neg hb] at hrec ⊢
        rcases List.mem_cons.mp hrec with h | h
        · rw [h]
          exact List.mem_cons_self _ _
        · exact List.mem_cons_of_mem _ (List.mem_cons_of_mem _ h)

/-- `redMaxabsd` dominates position `0` and every listed nonzero position. -/
theorem redMaxabsd_ge (d : SVec) :
    |d.get 0| ≤ |d.get (redMaxabsd d)| ∧ ∀ i ∈ d.nzind, |d.get i| ≤ |d.get (redMaxabsd d)| :=
  redMaxabsd_fold_ge d d.nzind 0

/-- `computemaxsteplength` in the zero-curvature case: flag set and step
infinite. -/
theorem computemaxsteplength_zc (p grad qp : Vec) (z : Bool)
    (h : D.blt (D.fin (1 / 10000)) (Vec.dot p qp).abs = false) :
    computemaxsteplength p grad qp z = (D.inf, true) := by
  unfold computemaxsteplength
  split
  · next hcond =>
      rw [h] at hcond
      exact absurd hcond (by simp)
  · rfl

/-! ## Decidable projections of step and run outcomes

`LoopState` contains function-valued fields (the basis maps), so whole-state
equalities are not decidable; these projections extract the decidable parts
that the concrete evaluations below assert. -/

/-- Status and AtVertex flag of a `cont` outcome. -/
def stepContStatusFlag : StepOut → Option (ProblemStatus × Bool)
  | StepOut.cont s => some (s.status, s.atfsep)
  | _ => none

/-- AtVertex flag and active-set size of a `cont` outcome. -/
def stepContFlagLen : StepOut → Option (Bool × Nat)
  | StepOut.cont s => some (s.atfsep, s.basis.active.length)
  | _ => none

/-- Exit status, exit `dualcon` and post-recovery `dualcon` of a `term`
outcome. -/
def exitRecovery (env : Env) : RunOut → Option (ProblemStatus × Vec × Vec)
  | RunOut.term s => some (s.status, s.dualcon, (solveEnd env s).dualcon)
  | _ => none

/-- Status and primal vector of a `term` outcome. -/
def termStatusPrimal : RunOut → Option (ProblemStatus × Vec)
  | RunOut.term s => some (s.status, s.primal)
  | _ => none

/-! ## Environments and states for witnesses and counterexamples -/

/-- Environment driving an AtVertex iteration into a zero-curvature direction
(`Q` behaves as zero, so `p·Q·p = 0`), with pricing selecting index `0` and a
ratio test that reports no blocking constraint. -/
def envZC : Env := { baseEnv with price := fun _ => 0, Qmatvec := fun _ => [D.fin 0] }

/-- `envZC` with an observable reduced-gradient expand operation. -/
def envZCrg : Env := { envZC with rgExpand := fun _ _ => [D.fin 7] }

/-- Environment with a zero iteration limit and a nonzero initial
reduced-costs vector. -/
def envLim0 : Env := { baseEnv with iterationlimit := 0, rcInit := [D.fin 5] }

/-- Environment whose wall-clock check fires immediately. -/
def envTime : Env := { baseEnv with timeExceeded := fun _ => true }

/-- Environment with a blocking ratio test at constraint `0` and an activation
that adds the entering index to the active list. -/
def envAct : Env := { baseEnv with
  ratiotest := fun _ _ _ _ => ⟨D.fin 1, 0, true⟩,
  activateB := fun b c _ drop =>
    { b with active := c.toNat :: b.active, inactive := b.inactive.erase drop.toNat } }

/-- Environment whose `Ztprod` column has a single pivot below the zero
threshold. -/
def envTiny : Env := { baseEnv with ZtprodCol := fun _ _ => ⟨[0, 1 / 100000000], [1]⟩ }

/-- A concrete basis with constraint `0` active. -/
def bCon0 : BasisState :=
  { active := [0], inactive := [1], indexinfactor := fun _ => 0,
    status := fun _ => BStatus.Default }

/-- A concrete basis with an empty active set. -/
def bEmpty : BasisState :=
  { active := [], inactive := [0, 1], indexinfactor := fun _ => 0,
    status := fun _ => BStatus.Default }

/-- A concrete basis with a constraint and a bound active. -/
def bTwo : BasisState :=
  { active := [0, 1], inactive := [], indexinfactor := fun _ => 0,
    status := fun _ => BStatus.Default }

/-- An OnFace state (flag false) with an empty active set and a descent
reduced gradient. -/
def sOnFace : LoopState :=
  { baseState with atfsep := false, basis := bEmpty, redgrad := [D.fin (-1)] }

/-- A state with two active indices (a constraint and a bound) and a nonzero
final reduced-cost vector. -/
def sTwoActive : LoopState := { baseState with basis := bTwo, redcosts := [D.fin 3] }

/-! ## Claims -/

/-- C1: the claim states that whenever the maximum step length is infinite
(zero-curvature direction) and the ratio test reports `limitingConstraint =
-1`, the solver sets status Unbounded and the solve loop terminates. The code
(solver.cpp:293-297) instead compares the integer `stepres.limitingconstraint`
against `std::numeric_limits<double>::infinity()`; an integer converted to
double is always finite, so the comparison is false for `-1`, the `UNBOUNDED`
assignment guarded by it is dead, and no `break` follows in that branch. This
theorem evaluates one such iteration: the zero-curvature branch fires (step
length `inf`, flag set), the ratio test always reports `-1` with an infinite
step, a finite value never compares equal to infinity, and the iteration ends
with `cont` — the loop does not terminate — leaving the status `NotSet`. -/
theorem C1_unbounded_never_signalled :
    majorMS envZC { baseState with numIterations := 1 } 0 = (D.inf, true) ∧
    (∀ s p r ms, (envZC.ratiotest s p r ms).limitingconstraint = -1) ∧
    (∀ q : ℚ, D.beq (D.fin q) D.inf = false) ∧
    stepContStatusFlag (step envZC baseState) = some (ProblemStatus.NotSet, true) :=
  ⟨by with_unfolding_all rfl, fun _ _ _ _ => rfl, fun _ => rfl, by with_unfolding_all rfl⟩

/-- C2 counterexample: a loop exit with status IterationLimit whose exit state
has `dualcon = [0]`, after which the post-loop recovery pass rewrites it to
`[5]` — the dual vectors are mutated after the loop exits, refuting the claim
as stated. -/
theorem C2_counterexample :
    exitRecovery envLim0
        (runLoop envLim0 1 (solveInit envLim0 [D.fin 0] bCon0 [D.fin 0] [D.fin 0])) =
      some (ProblemStatus.IterationLimit, [D.fin 0], [D.fin 5]) ∧
    ([D.fin 5] : Vec) ≠ [D.fin 0] :=
  ⟨by with_unfolding_all rfl, by with_unfolding_all decide⟩

/-- C2 (amended): an IterationLimit or TimeLimit termination sets exactly that
status, and after the loop exits the only further mutation of primal/dual
state is the one-shot recovery pass: the status is untouched by it, the
primal is replaced by `recomputex` exactly when the active set is full, and
dual entries targeted by no active index are unchanged. -/
theorem C2_amended_status_and_recovery (env : Env) (s : LoopState) :
    (s.numIterations ≥ env.iterationlimit →
      step env s = StepOut.brk { s with status := ProblemStatus.IterationLimit }) ∧
    (s.numIterations < env.iterationlimit → env.timeExceeded s = true →
      step env s = StepOut.brk { s with status := ProblemStatus.TimeLimit }) ∧
    (solveEnd env s).status = s.status ∧
    (solveEnd env s).primal =
      (if s.basis.active.length = env.num_var then env.recomputex s.basis else s.primal) ∧
    (∀ j, (∀ e ∈ s.basis.active, e < env.num_con → e ≠ j) →
      Vec.get (solveEnd env s).dualcon j = Vec.get s.dualcon j) ∧
    (∀ j, (∀ e ∈ s.basis.active, e ≥ env.num_con → e - env.num_con ≠ j) →
      Vec.get (solveEnd env s).dualvar j = Vec.get s.dualvar j) := by
  refine ⟨?_, ?_, solveEnd_status env s, solveEnd_primal env s, ?_, ?_⟩
  · intro h
    unfold step
    rw [if_pos h]
  · intro h1 h2
    unfold step
    rw [if_neg (by omega), if_pos h2]
  · intro j hj
    rw [solveEnd_dualcon]
    exact writeDuals_con_untouched _ _ _ _ _ _ _ hj
  · intro j hj
    rw [solveEnd_dualvar]
    exact writeDuals_var_untouched _ _ _ _ _ _ _ hj

/-- C2 witness: the amended theorem applied at concrete inputs — an immediate
IterationLimit break, an immediate TimeLimit break, and an untouched
`dualcon[0]` when only a variable bound is active. -/
theorem C2_amended_witness :
    step envLim0 baseState =
      StepOut.brk { baseState with status := ProblemStatus.IterationLimit } ∧
    step envTime baseState =
      StepOut.brk { baseState with status := ProblemStatus.TimeLimit } ∧
    Vec.get (solveEnd envLim0 baseState).dualcon 0 = Vec.get baseState.dualcon 0 :=
  ⟨(C2_amended_status_and_recovery envLim0 baseState).1 (by decide),
   (C2_amended_status_and_recovery envTime baseState).2.1 (by decide) rfl,
   (C2_amended_status_and_recovery envLim0 baseState).2.2.2.2.1 0 (by decide)⟩

/-- C3: in an AtVertex iteration within the iteration and time limits, if
pricing returns `-1` the solver sets status Optimal and leaves the loop
immediately; the resulting state differs from the incoming one only in the
status and the statistics iteration counter — in particular basis,
factorization state and primal vector are untouched (no deactivation, no
expand, no primal step). -/
theorem C3_pricing_optimal_stops (env : Env) (s : LoopState)
    (h1 : s.numIterations < env.iterationlimit)
    (h2 : env.timeExceeded s = false)
    (h3 : s.atfsep = true)
    (h4 : env.price { s with numIterations := s.numIterations + 1 } = -1) :
    step env s = StepOut.brk { s with numIterations := s.numIterations + 1,
                                      status := ProblemStatus.Optimal } := by
  unfold step
  rw [if_neg (by omega), if_neg (by simp [h2])]
  simp only [h3] at h4
  simp only [h3, if_true, h4, if_pos]

/-- C3 witness: the concrete base environment prices `-1`, and one step halts
with Optimal leaving every other field unchanged. -/
theorem C3_witness :
    step baseEnv baseState = StepOut.brk { baseState with
      numIterations := baseState.numIterations + 1, status := ProblemStatus.Optimal } :=
  C3_pricing_optimal_stops baseEnv baseState (by decide) rfl rfl rfl

/-- C4 counterexample: with `iterationlimit = 0` and a crash basis whose
active set is full, the returned primal is the `recomputex` point `[0]`, not
the crash point `x0 = [1]` — refuting the claim quantified over every
instance and crash start. -/
theorem C4_counterexample :
    termStatusPrimal (solve envLim0 1 [D.fin 1] baseBasis [D.fin 0] [D.fin 0]) =
      some (ProblemStatus.IterationLimit, [D.fin 0]) ∧
    ([D.fin 0] : Vec) ≠ [D.fin 1] :=
  ⟨by with_unfolding_all rfl, by with_unfolding_all decide⟩

/-- C4 (amended): with `iterationlimit = 0` the solve terminates immediately
with status IterationLimit; the returned primal equals the crash point `x0`
when the crash active set is smaller than `num_var`, and is
`basis.recomputex` when the active set is full. -/
theorem C4_amended_iterlimit_zero (env : Env) (fuel : Nat) (x0 : Vec) (b0 : BasisState)
    (dv0 dc0 : Vec) (hlim : env.iterationlimit = 0) (hf : 1 ≤ fuel) :
    ∃ sF, solve env fuel x0 b0 dv0 dc0 = RunOut.term sF ∧
      sF.status = ProblemStatus.IterationLimit ∧
      sF.primal = (if b0.active.length = env.num_var then env.recomputex b0 else x0) := by
  obtain ⟨k, rfl⟩ : ∃ k, fuel = k + 1 := ⟨fuel - 1, by omega⟩
  have hstep : step env (solveInit env x0 b0 dv0 dc0) =
      StepOut.brk { solveInit env x0 b0 dv0 dc0 with
        status := ProblemStatus.IterationLimit } := by
    unfold step
    rw [if_pos (by simp [solveInit, hlim])]
  have hrun : runLoop env (k + 1) (solveInit env x0 b0 dv0 dc0) =
      RunOut.term { solveInit env x0 b0 dv0 dc0 with
        status := ProblemStatus.IterationLimit } := by
    unfold runLoop
    rw [hstep]
  refine ⟨solveEnd env { solveInit env x0 b0 dv0 dc0 with
    status := ProblemStatus.IterationLimit }, ?_, ?_, ?_⟩
  · unfold solve
    rw [hrun]
  · rw [solveEnd_status]
  · rw [solveEnd_primal]
    rfl

/-- C4 witness: the amended theorem applied at a concrete instance with a
non-full crash active set. -/
theorem C4_amended_witness :
    ∃ sF, solve { envLim0 with num_var := 2 } 3 [D.fin 1] bCon0 [D.fin 0] [D.fin 0] =
        RunOut.term sF ∧
      sF.status = ProblemStatus.IterationLimit ∧
      sF.primal = (if bCon0.active.length = ({ envLim0 with num_var := 2 } : Env).num_var
        then ({ envLim0 with num_var := 2 } : Env).recomputex bCon0 else [D.fin 1]) :=
  C4_amended_iterlimit_zero { envLim0 with num_var := 2 } 3 [D.fin 1] bCon0 [D.fin 0]
    [D.fin 0] rfl (by decide)

/-- C5 counterexample: an AtVertex iteration with numerically zero curvature
in which the factorization expand is skipped but the reduced-gradient expand
is still performed (solver.cpp:254-257 guards only `factor.expand` by the
flag; `redgrad.expand` is unconditional) — refuting the claim that both
updates are skipped. -/
theorem C5_counterexample :
    majorMS envZCrg baseState 0 = (D.inf, true) ∧
    (majorStep envZCrg baseState 0).1.factor = baseState.factor ∧
    (majorStep envZCrg baseState 0).1.redgrad ≠ baseState.redgrad :=
  ⟨by with_unfolding_all rfl, by with_unfolding_all rfl, by with_unfolding_all decide⟩

/-- C5 (amended): in an AtVertex iteration whose tidied major direction `p`
has `fabs(p·Q·p) ≤ 10E-5`, the direction is flagged zero-curvature, the
maximum step length is `+inf`, the factorization expand update is skipped —
but the reduced-gradient expand update is still performed. -/
theorem C5_amended_zero_curvature (env : Env) (s : LoopState) (minidx : Int)
    (hz : D.blt (D.fin (1 / 10000))
      (Vec.dot (majorP env s minidx) (majorQp env s minidx)).abs = false) :
    majorMS env s minidx = (D.inf, true) ∧
    (majorStep env s minidx).1.factor = s.factor ∧
    (majorStep env s minidx).1.redgrad = env.rgExpand s.redgrad (majorYp env s minidx) := by
  have hms : majorMS env s minidx = (D.inf, true) := computemaxsteplength_zc _ _ _ _ hz
  refine ⟨hms, ?_, rfl⟩
  dsimp only [majorStep]
  rw [hms]
  simp

/-- C5 witness: the amended theorem applied at the concrete zero-curvature
environment. -/
theorem C5_witness :
    majorMS envZC baseState 0 = (D.inf, true) ∧
    (majorStep envZC baseState 0).1.factor = baseState.factor ∧
    (majorStep envZC baseState 0).1.redgrad =
      envZC.rgExpand baseState.redgrad (majorYp envZC baseState 0) :=
  C5_amended_zero_curvature envZC baseState 0 (by with_unfolding_all rfl)

/-- C6 counterexample: an OnFace iteration (flag false, empty active set)
whose ratio test finds a blocking constraint; activating it fills the active
set (size `num_var = 1`), yet since `atfsep` is only set to `false` when the
set is not full (solver.cpp:289-291), the next iteration begins in the OnFace
state with a full active set — refuting both the claimed iff and the claimed
transition back to AtVertex. -/
theorem C6_counterexample :
    stepContFlagLen (step envAct sOnFace) = some (false, 1) ∧ envAct.num_var = 1 :=
  ⟨by with_unfolding_all rfl, rfl⟩

/-- C6 (amended): the iff between the AtVertex flag and a full active set
holds at the initial state (solver.cpp:206), and after activating a blocking
constraint the next state is OnFace when fewer than `num_var` indices are
active — but when the active-set size equals `num_var` the flag merely keeps
its value from the start of the iteration, so the iff need not hold at the
top of every iteration. -/
theorem C6_amended_activation_flag :
    (∀ (env : Env) (x0 : Vec) (b0 : BasisState) (dv0 dc0 : Vec),
      (solveInit env x0 b0 dv0 dc0).atfsep = decide (b0.active.length = env.num_var)) ∧
    (∀ (env : Env) (s : LoopState) (p rowmove : Vec) (ms : D) (zcd : Bool)
      (d : SVec) (m : Nat) (ctd : Int),
      env.pnormSmall p = false →
      D.beq ms (D.fin 0) = false →
      (env.ratiotest s p rowmove ms).limitingconstraint ≠ -1 →
      reduceFn env s.basis (env.ratiotest s p rowmove ms).limitingconstraint =
        some (d, m, ctd) →
      ∃ t, stepTail env s p rowmove ms zcd = StepOut.cont t ∧
        t.basis = env.activateB s.basis (env.ratiotest s p rowmove ms).limitingconstraint
          (if (env.ratiotest s p rowmove ms).nowactiveatlower then BStatus.ActiveAtLower
            else BStatus.ActiveAtUpper) ctd ∧
        t.atfsep = (if (env.activateB s.basis
            (env.ratiotest s p rowmove ms).limitingconstraint
            (if (env.ratiotest s p rowmove ms).nowactiveatlower then BStatus.ActiveAtLower
              else BStatus.ActiveAtUpper) ctd).active.length ≠ env.num_var then false
          else s.atfsep)) := by
  constructor
  · intro env x0 b0 dv0 dc0
    rfl
  · intro env s p rowmove ms zcd d m ctd h1 h2 h3 h4
    dsimp only [stepTail]
    rw [if_neg (by simp [h1, h2]), if_pos h3, h4]
    dsimp only [finishStep]
    refine ⟨_, rfl, ?_, ?_⟩
    · split <;> (split <;> rfl)
    · split <;> (split <;> rfl)

/-- C6 witness: the amended theorem applied at the concrete activation
environment — the activation fills the active set and the flag keeps its
OnFace value. -/
theorem C6_witness :
    (solveInit envAct [D.fin 0] bCon0 [D.fin 0] [D.fin 0]).atfsep =
      decide (bCon0.active.length = envAct.num_var) ∧
    ∃ t, stepTail envAct sOnFace [D.fin 1] [D.fin 1] (D.fin 1) false = StepOut.cont t ∧
      t.basis = envAct.activateB sOnFace.basis 0 BStatus.ActiveAtLower 0 ∧
      t.atfsep = (if (envAct.activateB sOnFace.basis 0 BStatus.ActiveAtLower 0).active.length ≠
          envAct.num_var then false else sOnFace.atfsep) :=
  ⟨C6_amended_activation_flag.1 envAct [D.fin 0] bCon0 [D.fin 0] [D.fin 0],
   C6_amended_activation_flag.2 envAct sOnFace [D.fin 1] [D.fin 1] (D.fin 1) false
     (SVec.unit 2 0) 0 0 rfl rfl (by decide) (by with_unfolding_all rfl)⟩

/-- C7: in `reduce` (solver.cpp:144-176), when the entering constraint is not
among the inactive indices and the maximal pivot magnitude of the computed
direction `d` is below `d_zero_threshold`, the process aborts (`exit(1)`,
modelled by `none`) — the function has no `Error`-status return path at all;
otherwise the chosen constraint to drop is the inactive index at the pivot
position of maximal absolute value: under the sparse-index invariant (every
nonzero entry of `d` is listed in its index array), `|d[maxabsd]|` dominates
`|d[i]|` for every position `i`, and `constrainttodrop = inactive[maxabsd]` —
also in the early branch, where `d` is the unit vector at the position of the
entering constraint in the inactive list. -/
theorem C7_reduce_deadend_aborts (env : Env) (basis : BasisState) (c : Int) :
    (indexof basis.inactive c = -1 →
      |(env.ZtprodCol basis c).get (redMaxabsd (env.ZtprodCol basis c))| <
        env.d_zero_threshold →
      reduceFn env basis c = none) ∧
    (∀ d m ctd, reduceFn env basis c = some (d, m, ctd) →
      (∀ i, d.get i ≠ 0 → i ∈ d.nzind) →
      ctd = ((basis.inactive.getD m 0 : Nat) : Int) ∧ ∀ i, |d.get i| ≤ |d.get m|) := by
  constructor
  · intro hidx hsmall
    dsimp only [reduceFn]
    rw [if_neg (not_not_intro hidx), if_pos hsmall]
  · intro d m ctd hred hsp
    dsimp only [reduceFn] at hred
    by_cases hidx : indexof basis.inactive c ≠ -1
    · rw [if_pos hidx] at hred
      obtain ⟨hd, hm, hctd⟩ :
          SVec.unit basis.inactive.length (indexof basis.inactive c).toNat = d ∧
          (indexof basis.inactive c).toNat = m ∧ c = ctd := by
        simpa using hred
      obtain ⟨hlen, hval⟩ := indexof_spec basis.inactive c hidx
      subst hd hm hctd
      refine ⟨hval.symm, ?_⟩
      intro i
      rw [svecUnit_get_self _ _ hlen]
      simpa using svecUnit_get_le basis.inactive.length (indexof basis.inactive c).toNat i
    · rw [if_neg hidx] at hred
      by_cases hsm : |(env.ZtprodCol basis c).get (redMaxabsd (env.ZtprodCol basis c))| <
          env.d_zero_threshold
      · rw [if_pos hsm] at hred
        exact absurd hred (by simp)
      · rw [if_neg hsm] at hred
        obtain ⟨hd, hm, hctd⟩ :
            env.ZtprodCol basis c = d ∧ redMaxabsd (env.ZtprodCol basis c) = m ∧
            ((basis.inactive.getD (redMaxabsd (env.ZtprodCol basis c)) 0 : Nat) : Int) = ctd := by
          simpa using hred
        subst hd hm
        refine ⟨hctd.symm, ?_⟩
        intro i
        by_cases hz : (env.ZtprodCol basis c).get i = 0
        · rw [hz]
          simp
        · exact (redMaxabsd_ge (env.ZtprodCol basis c)).2 i (hsp i hz)

/-- C7 witness: the theorem applied at concrete inputs — an abort on a tiny
pivot for an entering constraint outside the inactive list, and the selection
property in the unit-vector branch. -/
theorem C7_witness :
    reduceFn envTiny baseBasis 5 = none ∧
    ((0 : Int) = ((baseBasis.inactive.getD 0 0 : Nat) : Int) ∧
      ∀ i, |(SVec.unit 1 0).get i| ≤ |(SVec.unit 1 0).get 0|) :=
  ⟨(C7_reduce_deadend_aborts envTiny baseBasis 5).1 rfl (by with_unfolding_all decide),
   (C7_reduce_deadend_aborts baseEnv baseBasis 0).2 (SVec.unit 1 0) 0 0
     (by with_unfolding_all rfl)
     (fun i hi => by
       match i with
       | 0 => simp [SVec.unit]
       | j + 1 => exact absurd (by with_unfolding_all rfl) hi)⟩

/-- C8: at every loop exit the recovery pass writes, for each active index
`e`, the reduced-cost value at position `indexinfactor[e]` into
`dualvar[e - num_con]` when `e ≥ num_con` and into `dualcon[e]` otherwise
(given distinct active indices and in-range dual vectors), and the primal
point is replaced by `basis.recomputex` if and only if the active-set size
equals `num_var`. -/
theorem C8_dual_recovery (env : Env) (s : LoopState)
    (hnd : s.basis.active.Nodup)
    (hvar : ∀ e ∈ s.basis.active, e ≥ env.num_con → e - env.num_con < s.dualvar.length)
    (hcon : ∀ e ∈ s.basis.active, e < env.num_con → e < s.dualcon.length) :
    (∀ e ∈ s.basis.active,
      (e ≥ env.num_con →
        Vec.get (solveEnd env s).dualvar (e - env.num_con) =
          Vec.get s.redcosts (s.basis.indexinfactor e)) ∧
      (e < env.num_con →
        Vec.get (solveEnd env s).dualcon e = Vec.get s.redcosts (s.basis.indexinfactor e))) ∧
    (solveEnd env s).primal =
      (if s.basis.active.length = env.num_var then env.recomputex s.basis else s.primal) := by
  refine ⟨?_, solveEnd_primal env s⟩
  intro e he
  constructor
  · intro hge
    rw [solveEnd_dualvar]
    exact writeDuals_var_written _ _ _ _ _ _ _ hnd he hge (hvar e he hge)
  · intro hlt
    rw [solveEnd_dualcon]
    exact writeDuals_con_written _ _ _ _ _ _ _ hnd he hlt (hcon e he hlt)

/-- C8 witness: the theorem applied at a state with one active constraint and
one active bound. -/
theorem C8_witness :
    (∀ e ∈ sTwoActive.basis.active,
      (e ≥ baseEnv.num_con →
        Vec.get (solveEnd baseEnv sTwoActive).dualvar (e - baseEnv.num_con) =
          Vec.get sTwoActive.redcosts (sTwoActive.basis.indexinfactor e)) ∧
      (e < baseEnv.num_con →
        Vec.get (solveEnd baseEnv sTwoActive).dualcon e =
          Vec.get sTwoActive.redcosts (sTwoActive.basis.indexinfactor e))) ∧
    (solveEnd baseEnv sTwoActive).primal =
      (if sTwoActive.basis.active.length = baseEnv.num_var
        then baseEnv.recomputex sTwoActive.basis else sTwoActive.primal) :=
  C8_dual_recovery baseEnv sTwoActive (by decide) (by decide) (by decide)

/-- C9: `computerowmove` returns right after `A.mat_vec(p, rowmove)`
(solver.cpp:63-64); the transpose-based recomputation and the
status-dependent loop after the first `return` are unreachable, so for every
basis and direction the function is extensionally `rowmove := A·p` — equal to
the specification-side definition that ignores basis statuses. -/
theorem C9_computerowmove_is_Ap (env : Env) (basis : BasisState) (p rm : Vec) :
    computerowmove env basis p rm = env.Amatvec p ∧
    computerowmove env basis p rm = computerowmoveSpec env p :=
  ⟨rfl, rfl⟩

/-- C10: `haveCommonClique` returns false for any two clique variables with
the same column — including a literal and its own complement — independently
of the clique-set query function, i.e. without consulting the stored clique
sets. -/
theorem C10_same_col_no_common_clique (f : CliqueVar → CliqueVar → Int) :
    (∀ v1 v2, v1.col = v2.col → haveCommonClique f v1 v2 = false) ∧
    (∀ v, haveCommonClique f v v.complement = false) := by
  constructor
  · intro v1 v2 h
    simp [haveCommonClique, h]
  · intro v
    simp [haveCommonClique, CliqueVar.complement]

/-- C10 witness: the theorem applied with a query function that would report a
common clique (`3 ≠ -1`) whenever consulted — the same-column early return
still yields false. -/
theorem C10_witness :
    haveCommonClique (fun _ _ => 3) ⟨2, 0⟩ ⟨2, 1⟩ = false ∧
    haveCommonClique (fun _ _ => 3) ⟨2, 0⟩ (CliqueVar.complement ⟨2, 0⟩) = false :=
  ⟨(C10_same_col_no_common_clique (fun _ _ => 3)).1 ⟨2, 0⟩ ⟨2, 1⟩ rfl,
   (C10_same_col_no_common_clique (fun _ _ => 3)).2 ⟨2, 0⟩⟩
